import Mathlib

/-!
Shallow embedding of the ecommerce product-catalog query engine
(`backend/product_service.py`, `backend/database.py`, `backend/main.py`).

Strings are modelled as Lean `String` / `List Char`; Python floats appear
only in order comparisons, so prices and ratings are modelled as `ℚ`;
Python dicts that the code iterates or sorts are modelled as insertion-ordered
association lists; Python `set` values are modelled as duplicate-free lists
(first-occurrence order) — the code only uses membership and iteration, and
every order-sensitive use is proved order-independent below.
-/

/-- Python regex class `\s` (whitespace), for the ASCII repertoire the catalog
and its tests exercise: space, tab, newline, carriage return, vertical tab,
form feed. -/
def isPySpace (c : Char) : Bool :=
  c.toNat = 0x20 || c.toNat = 0x09 || c.toNat = 0x0a ||
  c.toNat = 0x0d || c.toNat = 0x0b || c.toNat = 0x0c

/-- Python regex class `\w` (word character): underscore plus Unicode
alphanumerics.  We model the character repertoire exercised by the catalog,
the tests and the claims: ASCII digits and letters, Cyrillic letters, CJK
ideographs.  Emoji, punctuation and whitespace are not word characters. -/
def isPyWord (c : Char) : Bool :=
  c.toNat = 0x5f ||
  (0x30 ≤ c.toNat && c.toNat ≤ 0x39) ||
  (0x41 ≤ c.toNat && c.toNat ≤ 0x5a) ||
  (0x61 ≤ c.toNat && c.toNat ≤ 0x7a) ||
  (0x410 ≤ c.toNat && c.toNat ≤ 0x44f) ||
  (0x4e00 ≤ c.toNat && c.toNat ≤ 0x9fff)

/-- Python `str.lower` on the same repertoire: ASCII `A`-`Z` and Cyrillic
`А`-`Я` map down by 0x20; everything else is fixed. -/
def pyLower (c : Char) : Char :=
  if 0x41 ≤ c.toNat ∧ c.toNat ≤ 0x5a then Char.ofNat (c.toNat + 0x20)
  else if 0x410 ≤ c.toNat ∧ c.toNat ≤ 0x42f then Char.ofNat (c.toNat + 0x20)
  else c

/-- One character of `re.sub(r'[^\w\s]', ' ', text)`: a character that is
neither a word character nor whitespace becomes a single space. -/
def pySubNonWord (c : Char) : Char :=
  if isPyWord c || isPySpace c then c else ' '

/-- Auxiliary for Python `str.split()`: cut a character list at every
separator character, keeping empty pieces (filtered away in `pySplit`).
The result is always nonempty. -/
def splitAux (sep : Char → Bool) : List Char → List (List Char)
  | [] => [[]]
  | c :: cs =>
    match splitAux sep cs with
    | [] => [[]]
    | t :: ts => if sep c then [] :: t :: ts else (c :: t) :: ts

/-- Python `str.split()` with a separator class: split on runs of separator
characters and drop empty pieces. -/
def pySplit (sep : Char → Bool) (l : List Char) : List (List Char) :=
  (splitAux sep l).filter (fun t => !t.isEmpty)

/-- First-occurrence deduplication: the deterministic representative we use
for Python `set` iteration order.  All uses are proved order-independent. -/
def dedupFirstAux {α : Type} [DecidableEq α] (seen : List α) : List α → List α
  | [] => []
  | x :: xs => if x ∈ seen then dedupFirstAux seen xs else x :: dedupFirstAux (x :: seen) xs

def dedupFirst {α : Type} [DecidableEq α] (l : List α) : List α :=
  dedupFirstAux [] l

/-- Python `" ".join(pieces)`. -/
def joinSpace : List (List Char) → List Char
  | [] => []
  | [t] => t
  | t :: rest => t ++ ' ' :: joinSpace rest

/-- `normalize_text` (product_service.py:12-17): lowercase, replace every
character that is neither `\w` nor `\s` by a space, then collapse whitespace
by splitting and re-joining with single spaces. -/
def normalize_text (text : List Char) : List Char :=
  if text.isEmpty then []
  else
    let lowered := text.map pyLower
    let subbed := lowered.map pySubNonWord
    joinSpace (pySplit isPySpace subbed)

/-- `normalize_tokens` (product_service.py:19-21): the token set of the
normalized text, modelled as a duplicate-free list. -/
def normalize_tokens (text : List Char) : List (List Char) :=
  dedupFirst (pySplit isPySpace (normalize_text text))

/-- `normalize_key` (product_service.py:23-24). -/
def normalize_key (text : List Char) : List Char :=
  normalize_text text

/-- The product record (backend/models.py). -/
structure Product where
  id : String
  name : String
  description : String
  price : ℚ
  category : String
  brand : String
  rating : ℚ
  in_stock : Bool
  image_url : String
  tags : List String
  popularity_score : ℕ
deriving DecidableEq

/-- An order line item (backend/models.py). -/
structure OrderItem where
  product_id : String
  quantity : ℕ
  price : ℚ
deriving DecidableEq

/-- An order (backend/models.py). -/
structure Order where
  order_id : String
  date : String
  customer_id : String
  items : List OrderItem
  total : ℚ
deriving DecidableEq

/-- The text blob indexed for one product (product_service.py:31):
`f"{name} {description} {brand} {category}"` as a character list. -/
def productBlob (p : Product) : List Char :=
  p.name.toList ++ ' ' :: p.description.toList ++ ' ' :: p.brand.toList ++ ' ' :: p.category.toList

/-- The posting set `SEARCH_INDEX[token]` after `build_search_index`
(product_service.py:27-37): the ids of the products whose blob tokens
contain the token (a set; modelled in catalog order). -/
def SEARCH_INDEX (products : List Product) (token : List Char) : List String :=
  (products.filter (fun p => decide (token ∈ normalize_tokens (productBlob p)))).map (fun p => p.id)

/-- `search_with_index` (product_service.py:39-58) with the index built from
`all_products` (the index is rebuilt whenever the catalog changes):
intersect the posting sets of all query tokens, then keep the catalog's
order.  The short-circuit on an empty partial intersection returns the same
value and is dropped. -/
def search_with_index (query : String) (all_products : List Product) : List Product :=
  match normalize_tokens query.toList with
  | [] => []
  | t :: ts =>
    let candidate_ids :=
      ts.foldl (fun acc tok => acc.filter (fun i => decide (i ∈ SEARCH_INDEX all_products tok)))
        (SEARCH_INDEX all_products t)
    all_products.filter (fun p => decide (p.id ∈ candidate_ids))

/-- Truthiness of `search and search.strip()` (product_service.py:76). -/
def searchActive : Option String → Bool
  | none => false
  | some s => !s.isEmpty && s.toList.any (fun c => !isPySpace c)

/-- Truthiness of an optional list parameter (`if categories:`). -/
def listActive : Option (List String) → Bool
  | none => false
  | some l => !l.isEmpty

/-- The search stage (product_service.py:76-77 and 133-136). -/
def applySearch (search : Option String) (products : List Product) : List Product :=
  match search with
  | some s => if searchActive (some s) then search_with_index s products else products
  | none => products

/-- The category filter stage (product_service.py:79-81). -/
def filterByCategories (categories : Option (List String)) (products : List Product) : List Product :=
  match categories with
  | some cats =>
    if cats.isEmpty then products
    else
      let target_cats := cats.map (fun c => normalize_key c.toList)
      products.filter (fun p => decide (normalize_key p.category.toList ∈ target_cats))
  | none => products

/-- The brand filter stage (product_service.py:83-85). -/
def filterByBrands (brands : Option (List String)) (products : List Product) : List Product :=
  match brands with
  | some brs =>
    if brs.isEmpty then products
    else
      let target_brands := brs.map (fun b => normalize_key b.toList)
      products.filter (fun p => decide (normalize_key p.brand.toList ∈ target_brands))
  | none => products

/-- The inclusive lower price bound (product_service.py:87-88). -/
def filterByMinPrice (min_price : Option ℚ) (products : List Product) : List Product :=
  match min_price with
  | some m => products.filter (fun p => decide (m ≤ p.price))
  | none => products

/-- The inclusive upper price bound (product_service.py:90-91). -/
def filterByMaxPrice (max_price : Option ℚ) (products : List Product) : List Product :=
  match max_price with
  | some m => products.filter (fun p => decide (p.price ≤ m))
  | none => products

/-- The availability stage (product_service.py:93-97): an unrecognized
truthy value leaves the working set unchanged. -/
def filterByAvailability (availability : Option String) (products : List Product) : List Product :=
  match availability with
  | some a =>
    if a.isEmpty then products
    else if a = "in-stock" then products.filter (fun p => p.in_stock)
    else if a = "sold-out" then products.filter (fun p => !p.in_stock)
    else products
  | none => products

/-- The sort stage (product_service.py:99-106).  Python `list.sort` is
stable; we model it by the canonical stable sort (insertion sort) under the
same key, with `reverse=True` rendered as the flipped relation, which is the
same stable descending order. -/
def sortProducts (sort_by : Option String) (products : List Product) : List Product :=
  if sort_by = some "price_asc" then
    List.insertionSort (fun p q : Product => p.price ≤ q.price) products
  else if sort_by = some "price_desc" then
    List.insertionSort (fun p q : Product => q.price ≤ p.price) products
  else if sort_by = some "rating" then
    List.insertionSort (fun p q : Product => q.rating ≤ p.rating) products
  else if sort_by = some "popular" then
    List.insertionSort (fun p q : Product => q.popularity_score ≤ p.popularity_score) products
  else products

/-- The working list of `filter_products` just before pagination
(product_service.py:74-106): search, category, brand, price bounds,
availability, then sort. -/
def matchedProducts (store : List Product) (search : Option String)
    (categories brands : Option (List String)) (min_price max_price : Option ℚ)
    (sort_by availability : Option String) : List Product :=
  sortProducts sort_by
    (filterByAvailability availability
      (filterByMaxPrice max_price
        (filterByMinPrice min_price
          (filterByBrands brands
            (filterByCategories categories
              (applySearch search store))))))

/-- Whether some stage of `filter_products` rebinds the local `products`
variable to a fresh list.  When no stage does, `products` is still the very
list object returned by `get_all_products`, and an in-place `sort` mutates
the catalog store. -/
def productsRebound (search : Option String) (categories brands : Option (List String))
    (min_price max_price : Option ℚ) (availability : Option String) : Bool :=
  searchActive search || listActive categories || listActive brands ||
  min_price.isSome || max_price.isSome ||
  availability = some "in-stock" || availability = some "sold-out"

/-- The result record of `filter_products` (product_service.py:113-119). -/
structure FilterResult where
  items : List Product
  total : ℕ
  page : ℕ
  limit : ℕ
  total_pages : ℕ
deriving DecidableEq

/-- `filter_products` (product_service.py:62-119), as a state transformer on
the catalog store: the second component is the store after the call.  Python
aliasing: `products = get_all_products()` returns the store list itself; every
filter stage that fires rebinds `products` to a fresh list, but `products.sort`
mutates in place — so when no filter fired and a sort key matched, the store
itself ends up sorted. -/
def filter_products (store : List Product) (search : Option String)
    (categories brands : Option (List String)) (min_price max_price : Option ℚ)
    (sort_by availability : Option String) (page limit : ℕ) : FilterResult × List Product :=
  let products := matchedProducts store search categories brands min_price max_price sort_by availability
  let total_count := products.length
  let start := (page - 1) * limit
  let paginated_items := (products.drop start).take limit
  (⟨paginated_items, total_count, page, limit, (total_count + limit - 1) / limit⟩,
    if productsRebound search categories brands min_price max_price availability then store
    else sortProducts sort_by store)

/-- Increment an insertion-ordered counter dict: `m[k] = m.get(k, 0) + 1`.
A missing key is appended, as a Python dict does. -/
def bumpCount {α : Type} [DecidableEq α] (k : α) : List (α × ℕ) → List (α × ℕ)
  | [] => [(k, 1)]
  | (x, v) :: rest => if x = k then (x, v + 1) :: rest else (x, v) :: bumpCount k rest

/-- Association-list lookup (Python `dict.__getitem__` / `get`). -/
def alookup {α β : Type} [DecidableEq α] (k : α) : List (α × β) → Option β
  | [] => none
  | (x, v) :: rest => if x = k then some v else alookup k rest

/-- `dict.get(k, 0)` for counter dicts. -/
def lookupD {α : Type} [DecidableEq α] (m : List (α × ℕ)) (k : α) : ℕ :=
  (alookup k m).getD 0

/-- One facet entry of the metadata response. -/
structure FacetEntry where
  name : String
  count : ℕ
deriving DecidableEq

/-- One availability entry of the metadata response. -/
structure AvailabilityEntry where
  name : String
  value : String
  count : ℕ
deriving DecidableEq

/-- The metadata response of `get_faceted_metadata`. -/
structure FacetedMetadata where
  categories : List FacetEntry
  brands : List FacetEntry
  availability : List AvailabilityEntry
  minPrice : ℚ
  maxPrice : ℚ
deriving DecidableEq

/-- `sorted(counts.items())`: Python sorts the pairs lexicographically
(codepoint order on the name, then the count). -/
def sortedFacetPairs (pairs : List (String × ℕ)) : List (String × ℕ) :=
  List.insertionSort (fun a b : String × ℕ => a.1 < b.1 ∨ (a.1 = b.1 ∧ a.2 ≤ b.2)) pairs

/-- Build the sorted facet entry list for one dimension
(product_service.py:168-175 and 183-190): count the values of `f` over the
context dict-style, then sort by name. -/
def facetEntries (f : Product → String) (ctx : List Product) : List FacetEntry :=
  (sortedFacetPairs (ctx.foldl (fun m p => bumpCount (f p) m) [])).map
    (fun kv => ⟨kv.1, kv.2⟩)

/-- The `apply_filters` helper of `get_faceted_metadata`
(product_service.py:140-157): availability unless ignored, then the price
bounds unless ignored. -/
def apply_filters (availability : Option String) (min_price max_price : Option ℚ)
    (ignore_avail ignore_price : Bool) (products_list : List Product) : List Product :=
  let filtered := if ignore_avail then products_list else filterByAvailability availability products_list
  if ignore_price then filtered else filterByMaxPrice max_price (filterByMinPrice min_price filtered)

/-- `get_faceted_metadata` (product_service.py:121-237). -/
def get_faceted_metadata (store : List Product) (search : Option String)
    (categories brands : Option (List String)) (min_price max_price : Option ℚ)
    (availability : Option String) : FacetedMetadata :=
  let base_products := applySearch search store
  let global_context := apply_filters availability min_price max_price false false base_products
  let brand_calc_context := filterByCategories categories global_context
  let brand_facets := facetEntries (fun p => p.brand) brand_calc_context
  let cat_calc_context := filterByBrands brands global_context
  let cat_facets := facetEntries (fun p => p.category) cat_calc_context
  let avail_context :=
    filterByBrands brands (filterByCategories categories
      (apply_filters availability min_price max_price true false base_products))
  let in_stock_count := avail_context.countP (fun p => p.in_stock)
  let sold_out_count := avail_context.countP (fun p => !p.in_stock)
  let price_context :=
    filterByBrands brands (filterByCategories categories
      (apply_filters availability min_price max_price false true base_products))
  let calc_min := match price_context.map (fun p => p.price) with
    | [] => 0
    | h :: t => t.foldl min h
  let calc_max := match price_context.map (fun p => p.price) with
    | [] => 0
    | h :: t => t.foldl max h
  ⟨cat_facets, brand_facets,
    [⟨"In Stock", "in-stock", in_stock_count⟩, ⟨"Sold Out", "sold-out", sold_out_count⟩],
    calc_min, calc_max⟩

/-- The co-purchase graph `CO_PURCHASE_MAP` (database.py:13): an
insertion-ordered map from product id to an insertion-ordered counter map of
neighbor ids. -/
abbrev Graph := List (String × List (String × ℕ))

/-- `CO_PURCHASE_MAP[p1][p2] += 1` with missing entries created
(database.py:37-38). -/
def bumpEdge (p1 p2 : String) : Graph → Graph
  | [] => [(p1, [(p2, 1)])]
  | (k, m) :: rest => if k = p1 then (k, bumpCount p2 m) :: rest else (k, m) :: bumpEdge p1 p2 rest

/-- Link `p1 -> p2` and symmetrically `p2 -> p1` (database.py:36-42). -/
def linkPair (p1 p2 : String) (g : Graph) : Graph :=
  bumpEdge p2 p1 (bumpEdge p1 p2 g)

/-- The double loop of `build_recommendation_graph` over the distinct item
ids of one order: every pair at positions `i < j` is linked both ways. -/
def addOrderPairs : List String → Graph → Graph
  | [], g => g
  | p1 :: rest, g => addOrderPairs rest (rest.foldl (fun acc p2 => linkPair p1 p2 acc) g)

/-- `build_recommendation_graph` (database.py:15-44).  Python iterates
`list({item.product_id for item in order.items})`, whose order is
implementation-defined; we take first-occurrence order and prove the stored
weights independent of it. -/
def build_recommendation_graph (orders : List Order) : Graph :=
  orders.foldl
    (fun g order => addOrderPairs (dedupFirst (order.items.map (fun item => item.product_id))) g)
    []

/-- The stored weight `CO_PURCHASE_MAP[a][b]` (0 when absent). -/
def weight (g : Graph) (a b : String) : ℕ :=
  lookupD ((alookup a g).getD []) b

/-- `get_recommended_product_ids` (database.py:46-60): top `limit` neighbor
ids sorted by co-occurrence count descending (`sorted(..., reverse=True)` is
stable, modelled by insertion sort under the flipped relation). -/
def get_recommended_product_ids (graph : Graph) (product_id : String) (limit : ℕ) : List String :=
  match alookup product_id graph with
  | none => []
  | some neighbors =>
    let sorted_neighbors := List.insertionSort (fun a b : String × ℕ => b.2 ≤ a.2) neighbors
    (sorted_neighbors.take limit).map (fun kv => kv.1)

/-- The `/api/products/.../recommendations` endpoint (main.py:120-125):
resolve the recommended ids against the catalog in catalog order. -/
def get_recommendations (graph : Graph) (store : List Product) (product_id : String) : List Product :=
  let recIds := get_recommended_product_ids graph product_id 3
  store.filter (fun p => decide (p.id ∈ recIds))

/-- `calculate_popularity_scores` (database.py:62-77): count for each product
the orders whose distinct-item set contains it, then write the scores onto
the products. -/
def calculate_popularity_scores (products : List Product) (orders : List Order) : List Product :=
  let frequency_map := orders.foldl
    (fun m order =>
      (dedupFirst (order.items.map (fun item => item.product_id))).foldl
        (fun acc product_id => bumpCount product_id acc) m)
    []
  products.map (fun p => { p with popularity_score := lookupD frequency_map p.id })

/-- From the amended claim C2: the maximal word-character runs of a text. -/
def wordRuns (l : List Char) : List (List Char) :=
  pySplit (fun c => !isPyWord c) l

/-- From claim C3: the category facet context — the search and the brand,
price and availability filters; the category filter is omitted. -/
def specCategoryContext (store : List Product) (search : Option String)
    (brands : Option (List String)) (min_price max_price : Option ℚ)
    (availability : Option String) : List Product :=
  filterByAvailability availability
    (filterByMaxPrice max_price
      (filterByMinPrice min_price
        (filterByBrands brands (applySearch search store))))

/-- From claim C3: the brand facet context — the search and the category,
price and availability filters; the brand filter is omitted. -/
def specBrandContext (store : List Product) (search : Option String)
    (categories : Option (List String)) (min_price max_price : Option ℚ)
    (availability : Option String) : List Product :=
  filterByAvailability availability
    (filterByMaxPrice max_price
      (filterByMinPrice min_price
        (filterByCategories categories (applySearch search store))))

/-- From claim C3: the availability facet context — the search and the
category, brand and price filters; the availability filter is omitted. -/
def specAvailabilityContext (store : List Product) (search : Option String)
    (categories brands : Option (List String)) (min_price max_price : Option ℚ) :
    List Product :=
  filterByMaxPrice max_price
    (filterByMinPrice min_price
      (filterByBrands brands
        (filterByCategories categories (applySearch search store))))

/-- From claim C8: the price-bounds context — the search, category, brand
and availability filters; the requested price bounds are ignored. -/
def specPriceContext (store : List Product) (search : Option String)
    (categories brands : Option (List String)) (availability : Option String) :
    List Product :=
  filterByAvailability availability
    (filterByBrands brands
      (filterByCategories categories (applySearch search store)))

/-- A concrete catalog entry for witnesses. -/
def mkProduct (i nm : String) (pr : ℚ) (cat br : String) (stock : Bool) : Product :=
  ⟨i, nm, "", pr, cat, br, 0, stock, "u", [], 0⟩

/-- A small concrete catalog used by the witnesses. -/
def demoStore : List Product :=
  [mkProduct "1" "Nike Air Max" 100 "Footwear" "Nike" true,
   mkProduct "2" "Adidas Ultraboost" 120 "Footwear" "Adidas" true,
   mkProduct "3" "Puma Shirt" 30 "Apparel" "Puma" false]

/-- A concrete order line item for witnesses. -/
def mkItem (pid : String) (q : ℕ) : OrderItem :=
  ⟨pid, q, 1⟩

/-- A small concrete order history used by the witnesses. -/
def demoOrders : List Order :=
  [⟨"o1", "d1", "c1", [mkItem "A" 100, mkItem "A" 1, mkItem "B" 1], 0⟩,
   ⟨"o2", "d2", "c2", [mkItem "A" 1, mkItem "B" 1], 0⟩,
   ⟨"o3", "d3", "c3", [mkItem "B" 1], 0⟩]

theorem splitAux_ne_nil (sep : Char → Bool) (l : List Char) : splitAux sep l ≠ [] := by
  induction l with
  | nil => simp [splitAux]
  | cons c cs ih =>
    simp only [splitAux]
    cases h : splitAux sep cs with
    | nil => simp
    | cons t ts => cases hc : sep c <;> simp [hc]

theorem sep_free_of_mem_splitAux (sep : Char → Bool) (l : List Char) :
    ∀ tok ∈ splitAux sep l, ∀ c ∈ tok, sep c = false := by
  induction l with
  | nil =>
    intro tok htok c hc
    simp [splitAux] at htok
    subst htok
    simp at hc
  | cons a cs ih =>
    intro tok htok c hc
    simp only [splitAux] at htok
    cases h : splitAux sep cs with
    | nil => exact absurd h (splitAux_ne_nil sep cs)
    | cons t ts =>
      rw [h] at htok
      have hts : ∀ x ∈ t :: ts, ∀ d ∈ x, sep d = false := by
        intro x hx
        exact ih x (by rw [h]; exact hx)
      cases hsa : sep a with
      | true =>
        rw [hsa] at htok
        simp at htok
        rcases htok with rfl | h1 | h1
        · simp at hc
        · exact hts tok (by rw [h1]; exact List.mem_cons_self t ts) c hc
        · exact hts tok (List.mem_cons_of_mem t h1) c hc
      | false =>
        rw [hsa] at htok
        simp at htok
        rcases htok with rfl | h1
        · rcases List.mem_cons.mp hc with h2 | h2
          · subst h2; exact hsa
          · exact hts t (List.mem_cons_self t ts) c h2
        · exact hts tok (List.mem_cons_of_mem t h1) c hc

theorem mem_pySplit (sep : Char → Bool) (l : List Char) (tok : List Char)
    (h : tok ∈ pySplit sep l) : tok ≠ [] ∧ ∀ c ∈ tok, sep c = false := by
  unfold pySplit at h
  rw [List.mem_filter] at h
  refine ⟨?_, sep_free_of_mem_splitAux sep l tok h.1⟩
  have := h.2
  simp only [Bool.not_eq_true'] at this
  exact fun habs => by rw [habs] at this; simp at this

theorem splitAux_sep_cons (sep : Char → Bool) (c : Char) (l : List Char) (hc : sep c = true) :
    splitAux sep (c :: l) = [] :: splitAux sep l := by
  simp only [splitAux]
  cases h : splitAux sep l with
  | nil => exact absurd h (splitAux_ne_nil sep l)
  | cons t ts => simp [hc]

theorem splitAux_append_sep_free (sep : Char → Bool) (t l : List Char)
    (ht : ∀ c ∈ t, sep c = false) :
    splitAux sep (t ++ l) = (t ++ (splitAux sep l).headI) :: (splitAux sep l).tail := by
  induction t with
  | nil =>
    cases h : splitAux sep l with
    | nil => exact absurd h (splitAux_ne_nil sep l)
    | cons x xs => rw [List.nil_append, h]; simp
  | cons a t' ih =>
    have ha : sep a = false := ht a (List.mem_cons_self a t')
    have ih' := ih (fun c hc => ht c (List.mem_cons_of_mem a hc))
    rw [List.cons_append]
    simp only [splitAux]
    rw [ih']
    simp [ha]

theorem pySplit_joinSpace (sep : Char → Bool) (ts : List (List Char))
    (hsp : sep ' ' = true)
    (h : ∀ t ∈ ts, t ≠ [] ∧ ∀ c ∈ t, sep c = false) :
    pySplit sep (joinSpace ts) = ts := by
  induction ts with
  | nil => rfl
  | cons t rest ih =>
    obtain ⟨hne, hfree⟩ := h t (List.mem_cons_self t rest)
    cases rest with
    | nil =>
      show pySplit sep (joinSpace [t]) = [t]
      have hsingle : joinSpace [t] = t := rfl
      unfold pySplit
      rw [hsingle]
      have := splitAux_append_sep_free sep t [] hfree
      rw [List.append_nil] at this
      rw [this]
      simp [splitAux, List.isEmpty_iff, hne]
    | cons r rest' =>
      have hjoin : joinSpace (t :: r :: rest') = t ++ ' ' :: joinSpace (r :: rest') := rfl
      unfold pySplit
      rw [hjoin]
      rw [splitAux_append_sep_free sep t (' ' :: joinSpace (r :: rest')) hfree]
      rw [splitAux_sep_cons sep ' ' (joinSpace (r :: rest')) hsp]
      have ihr := ih (fun x hx => h x (List.mem_cons_of_mem t hx))
      unfold pySplit at ihr
      simp only [List.headI, List.tail, List.append_nil]
      rw [List.filter_cons]
      simp only [List.isEmpty_iff, Bool.not_eq_true']
      rw [if_pos (by simp [List.isEmpty_iff, hne])]
      rw [ihr]

theorem splitAux_congr_map (f : Char → Char) (sep1 sep2 : Char → Bool) (l : List Char)
    (h : ∀ c ∈ l, sep1 (f c) = sep2 c ∧ (sep2 c = false → f c = c)) :
    splitAux sep1 (l.map f) = splitAux sep2 l := by
  induction l with
  | nil => rfl
  | cons c cs ih =>
    have ih' := ih (fun x hx => h x (List.mem_cons_of_mem c hx))
    obtain ⟨h1, h2⟩ := h c (List.mem_cons_self c cs)
    simp only [List.map_cons, splitAux, ih']
    cases hsa : splitAux sep2 cs with
    | nil => exact absurd hsa (splitAux_ne_nil sep2 cs)
    | cons t ts' =>
      cases hs : sep2 c with
      | true =>
        rw [hs] at h1
        simp [h1]
      | false =>
        rw [hs] at h1
        rw [h2 hs] at h1 ⊢
        simp [h1]

theorem pySplit_congr_map (f : Char → Char) (sep1 sep2 : Char → Bool) (l : List Char)
    (h : ∀ c ∈ l, sep1 (f c) = sep2 c ∧ (sep2 c = false → f c = c)) :
    pySplit sep1 (l.map f) = pySplit sep2 l := by
  unfold pySplit
  rw [splitAux_congr_map f sep1 sep2 l h]

theorem isPyWord_not_space (c : Char) (h : isPyWord c = true) : isPySpace c = false := by
  rw [Bool.eq_false_iff]
  intro habs
  simp only [isPySpace, Bool.or_eq_true, decide_eq_true_eq] at habs
  simp only [isPyWord, Bool.or_eq_true, Bool.and_eq_true, decide_eq_true_eq] at h
  omega

theorem pySubNonWord_sep (c : Char) :
    isPySpace (pySubNonWord c) = !isPyWord c ∧ (isPyWord c = true → pySubNonWord c = c) := by
  cases hw : isPyWord c with
  | true =>
    refine ⟨?_, fun _ => by simp [pySubNonWord, hw]⟩
    simp [pySubNonWord, hw, isPyWord_not_space c hw]
  | false =>
    refine ⟨?_, fun habs => by simp at habs⟩
    cases hs : isPySpace c with
    | true => simp [pySubNonWord, hw, hs]
    | false =>
      have hsub : pySubNonWord c = ' ' := by simp [pySubNonWord, hw, hs]
      rw [hsub]
      decide

theorem mem_dedupFirstAux {α : Type} [DecidableEq α] (l : List α) :
    ∀ (seen : List α) (x : α), x ∈ dedupFirstAux seen l ↔ (x ∈ l ∧ x ∉ seen) := by
  induction l with
  | nil => intro seen x; simp [dedupFirstAux]
  | cons a as ih =>
    intro seen x
    simp only [dedupFirstAux]
    by_cases ha : a ∈ seen
    · rw [if_pos ha, ih seen x, List.mem_cons]
      constructor
      · rintro ⟨hx, hs⟩; exact ⟨Or.inr hx, hs⟩
      · rintro ⟨hx | hx, hs⟩
        · subst hx; exact absurd ha hs
        · exact ⟨hx, hs⟩
    · rw [if_neg ha]
      simp only [List.mem_cons, ih (a :: seen) x, List.mem_cons]
      constructor
      · rintro (rfl | ⟨hx, hs⟩)
        · exact ⟨Or.inl rfl, ha⟩
        · exact ⟨Or.inr hx, fun hxs => hs (Or.inr hxs)⟩
      · rintro ⟨rfl | hx, hs⟩
        · exact Or.inl rfl
        · by_cases hxa : x = a
          · exact Or.inl hxa
          · exact Or.inr ⟨hx, fun hmem => by
              rcases hmem with h1 | h1
              · exact hxa h1
              · exact hs h1⟩

theorem mem_dedupFirst {α : Type} [DecidableEq α] (l : List α) (x : α) :
    x ∈ dedupFirst l ↔ x ∈ l := by
  simp [dedupFirst, mem_dedupFirstAux]

theorem nodup_dedupFirstAux {α : Type} [DecidableEq α] (l : List α) :
    ∀ seen : List α, (dedupFirstAux seen l).Nodup := by
  induction l with
  | nil => intro seen; simp [dedupFirstAux]
  | cons a as ih =>
    intro seen
    simp only [dedupFirstAux]
    by_cases ha : a ∈ seen
    · rw [if_pos ha]; exact ih seen
    · rw [if_neg ha]
      rw [List.nodup_cons]
      refine ⟨?_, ih (a :: seen)⟩
      intro hmem
      rw [mem_dedupFirstAux] at hmem
      exact hmem.2 (List.mem_cons_self a seen)

theorem nodup_dedupFirst {α : Type} [DecidableEq α] (l : List α) : (dedupFirst l).Nodup :=
  nodup_dedupFirstAux l []

theorem normalize_tokens_eq_wordRuns (text : List Char) :
    normalize_tokens text = dedupFirst (wordRuns (text.map pyLower)) := by
  by_cases hempty : text.isEmpty
  · have : text = [] := by cases text <;> simp_all
    subst this
    rfl
  · unfold normalize_tokens normalize_text
    rw [if_neg hempty]
    have hmain :
        pySplit isPySpace (joinSpace (pySplit isPySpace ((text.map pyLower).map pySubNonWord)))
          = pySplit isPySpace ((text.map pyLower).map pySubNonWord) := by
      apply pySplit_joinSpace isPySpace _ (by decide)
      intro t ht
      exact mem_pySplit isPySpace _ t ht
    rw [hmain]
    unfold wordRuns
    rw [pySplit_congr_map pySubNonWord isPySpace (fun c => !isPyWord c) (text.map pyLower)]
    intro c _
    obtain ⟨h1, h2⟩ := pySubNonWord_sep c
    refine ⟨h1, fun hnf => h2 ?_⟩
    simpa using hnf

/-- C2: the claim as written is false on the code: `re.sub(r'[^\w\s]', ' ', …)`
keeps the underscore (`\w` includes it) and erases emoji (`\w` excludes
them). -/
theorem C2_counterexample :
    ('_' ∈ normalize_key ['a', '_', 'b']) ∧ normalize_tokens ['🔥'] = [] := by
  constructor
  · decide
  · decide

/-- C2 (amended): normalization lowercases the input and replaces exactly the
characters that are neither Python word characters (Unicode alphanumerics or
underscore) nor whitespace with a single space, then collapses whitespace;
the resulting token set is exactly the set of maximal word-character runs of
the lowercased input, so non-Latin letters and underscores survive as token
characters while emoji and other punctuation never do. -/
theorem C2_normalization (text : List Char) :
    normalize_tokens text = dedupFirst (wordRuns (text.map pyLower)) ∧
    (normalize_tokens text).all (fun tok => tok.all isPyWord) = true := by
  refine ⟨normalize_tokens_eq_wordRuns text, ?_⟩
  rw [List.all_eq_true]
  intro tok htok
  rw [List.all_eq_true]
  intro c hc
  rw [normalize_tokens_eq_wordRuns text, mem_dedupFirst] at htok
  have := (mem_pySplit _ _ tok htok).2 c hc
  simpa using this

theorem lookupD_bumpCount {α : Type} [DecidableEq α] (k x : α) (m : List (α × ℕ)) :
    lookupD (bumpCount k m) x = lookupD m x + (if x = k then 1 else 0) := by
  induction m with
  | nil =>
    unfold bumpCount lookupD alookup
    by_cases h : k = x
    · subst h; simp
    · rw [if_neg h, if_neg (fun hh => h hh.symm)]
      simp [alookup]
  | cons kv rest ih =>
    obtain ⟨a, v⟩ := kv
    by_cases hak : a = k
    · subst hak
      simp only [bumpCount, if_pos rfl]
      by_cases hax : a = x
      · subst hax; simp [lookupD, alookup]
      · have hxa : ¬ x = a := fun hh => hax hh.symm
        simp [lookupD, alookup, hax, hxa]
    · simp only [bumpCount, if_neg hak]
      by_cases hax : a = x
      · subst hax
        have hxk : ¬ a = k := hak
        simp [lookupD, alookup, if_neg (fun hh => hxk hh)]
      · simp only [lookupD, alookup, if_neg hax]
        have := ih
        simp only [lookupD] at this
        rw [this]

theorem lookupD_foldl_bumpCount {α : Type} [DecidableEq α] :
    ∀ (l : List α), l.Nodup → ∀ (m : List (α × ℕ)) (x : α),
    lookupD (l.foldl (fun acc k => bumpCount k acc) m) x
      = lookupD m x + (if x ∈ l then 1 else 0) := by
  intro l
  induction l with
  | nil => intro _ m x; simp
  | cons a l ih =>
    intro hnd m x
    rw [List.foldl_cons]
    rw [ih (List.nodup_cons.mp hnd).2 (bumpCount a m) x]
    rw [lookupD_bumpCount]
    by_cases hxa : x = a
    · subst hxa
      have hnin : x ∉ l := (List.nodup_cons.mp hnd).1
      simp [hnin]
    · simp [hxa, List.mem_cons]

theorem lookupD_popularity_fold (orders : List Order) :
    ∀ (m : List (String × ℕ)) (x : String),
    lookupD
      (orders.foldl
        (fun acc order =>
          (dedupFirst (order.items.map (fun item => item.product_id))).foldl
            (fun a product_id => bumpCount product_id a) acc) m) x
      = lookupD m x
        + orders.countP (fun o => decide (x ∈ o.items.map (fun item => item.product_id))) := by
  induction orders with
  | nil => intro m x; simp
  | cons o os ih =>
    intro m x
    rw [List.foldl_cons, ih, lookupD_foldl_bumpCount _ (nodup_dedupFirst _)]
    rw [List.countP_cons]
    have hmem : x ∈ dedupFirst (o.items.map (fun item => item.product_id))
        ↔ x ∈ o.items.map (fun item => item.product_id) := mem_dedupFirst _ _
    by_cases hx : x ∈ o.items.map (fun item => item.product_id)
    · rw [if_pos (hmem.mpr hx)]
      simp [hx]
      omega
    · rw [if_neg (fun hh => hx (hmem.mp hh))]
      simp [hx]

/-- C4: for every product list and order history, the computed popularity
score of each product equals the number of orders whose line items reference
that product at least once — duplicate line items and quantities inside one
order contribute exactly once, and a product referenced by no order scores
zero. -/
theorem C4_popularity_scores (products : List Product) (orders : List Order) :
    calculate_popularity_scores products orders =
      products.map (fun p =>
        { p with popularity_score :=
            orders.countP (fun o => decide (p.id ∈ o.items.map (fun item => item.product_id))) }) := by
  unfold calculate_popularity_scores
  apply List.map_congr_left
  intro p _
  have h := lookupD_popularity_fold orders [] p.id
  simp only [lookupD, alookup, Option.getD_none] at h
  simp only [lookupD]
  rw [h]
  simp

theorem alookup_bumpCount_ne {α : Type} [DecidableEq α] (k x : α) (m : List (α × ℕ))
    (hne : x ≠ k) : alookup x (bumpCount k m) = alookup x m := by
  induction m with
  | nil => simp [bumpCount, alookup, Ne.symm hne]
  | cons kv rest ih =>
    obtain ⟨a, v⟩ := kv
    by_cases hak : a = k
    · subst hak
      simp only [bumpCount, if_pos rfl]
      by_cases hax : a = x
      · exact absurd hax.symm hne
      · simp [alookup, hax]
    · simp only [bumpCount, if_neg hak]
      by_cases hax : a = x
      · simp [alookup, hax]
      · simp [alookup, hax, ih]

theorem alookup_bumpEdge (p1 p2 : String) (g : Graph) (x : String) :
    alookup x (bumpEdge p1 p2 g)
      = if x = p1 then some (bumpCount p2 ((alookup p1 g).getD [])) else alookup x g := by
  induction g with
  | nil =>
    by_cases hx : x = p1
    · subst hx; simp [bumpEdge, alookup, bumpCount]
    · simp [bumpEdge, alookup, hx, Ne.symm hx]
  | cons kv rest ih =>
    obtain ⟨k, m⟩ := kv
    by_cases hk : k = p1
    · subst hk
      simp only [bumpEdge, if_pos rfl]
      by_cases hx : x = k
      · subst hx; simp [alookup]
      · simp [alookup, hx, Ne.symm hx]
    · simp only [bumpEdge, if_neg hk]
      by_cases hx : k = x
      · subst hx
        rw [if_neg (fun hh : k = p1 => hk hh)]
        simp [alookup]
      · simp only [alookup, if_neg hx]
        rw [ih, if_neg hk]

theorem weight_bumpEdge (p1 p2 : String) (g : Graph) (a b : String) :
    weight (bumpEdge p1 p2 g) a b = weight g a b + (if a = p1 ∧ b = p2 then 1 else 0) := by
  unfold weight
  rw [alookup_bumpEdge]
  by_cases ha : a = p1
  · subst ha
    rw [if_pos rfl]
    simp only [Option.getD_some]
    have := lookupD_bumpCount p2 b ((alookup a g).getD [])
    simp only [lookupD] at this
    simp only [lookupD]
    rw [this]
    by_cases hb : b = p2 <;> simp [hb]
  · rw [if_neg ha, if_neg (fun hh => ha hh.1)]
    simp

theorem weight_linkPair (p1 p2 : String) (g : Graph) (a b : String) :
    weight (linkPair p1 p2 g) a b
      = weight g a b + (if a = p1 ∧ b = p2 then 1 else 0)
        + (if a = p2 ∧ b = p1 then 1 else 0) := by
  unfold linkPair
  rw [weight_bumpEdge, weight_bumpEdge]

theorem weight_foldl_linkPair (p1 : String) :
    ∀ (rest : List String), p1 ∉ rest → ∀ (g : Graph) (a b : String),
    weight (rest.foldl (fun acc p2 => linkPair p1 p2 acc) g) a b
      = weight g a b + (if a = p1 then rest.count b else 0)
        + (if b = p1 then rest.count a else 0) := by
  intro rest
  induction rest with
  | nil => intro _ g a b; simp
  | cons p2 rest ih =>
    intro hp g a b
    have h12 : p1 ≠ p2 := fun hh => hp (hh ▸ List.mem_cons_self p2 rest)
    have hp2 : p1 ∉ rest := fun hh => hp (List.mem_cons_of_mem p2 hh)
    have hcb2 : (p2 :: rest).count b = rest.count b + (if b = p2 then 1 else 0) := by
      rw [List.count_cons]
      by_cases h : b = p2
      · simp [h]
      · simp [beq_iff_eq, h, Ne.symm h]
    have hca2 : (p2 :: rest).count a = rest.count a + (if a = p2 then 1 else 0) := by
      rw [List.count_cons]
      by_cases h : a = p2
      · simp [h]
      · simp [beq_iff_eq, h, Ne.symm h]
    rw [List.foldl_cons, ih hp2, weight_linkPair, hcb2, hca2]
    by_cases hap : a = p1
    · have ha2 : ¬ a = p2 := fun hh => h12 (hap.symm.trans hh)
      by_cases hbp : b = p1
      · have hb2 : ¬ b = p2 := fun hh => h12 (hbp.symm.trans hh)
        simp [hap, hbp, ha2, hb2] <;> omega
      · by_cases hb2 : b = p2 <;> simp [hap, hbp, ha2, hb2, h12, Ne.symm h12] <;> omega
    · by_cases hbp : b = p1
      · have hb2 : ¬ b = p2 := fun hh => h12 (hbp.symm.trans hh)
        by_cases ha2 : a = p2 <;> simp [hap, hbp, ha2, hb2, h12, Ne.symm h12] <;> omega
      · simp [hap, hbp] <;> omega

theorem weight_addOrderPairs :
    ∀ (ids : List String), ids.Nodup → ∀ (g : Graph) (a b : String), a ≠ b →
    weight (addOrderPairs ids g) a b
      = weight g a b + (if a ∈ ids ∧ b ∈ ids then 1 else 0) := by
  intro ids
  induction ids with
  | nil => intro _ g a b _; simp [addOrderPairs]
  | cons p rest ih =>
    intro hnd g a b hab
    obtain ⟨hp, hr⟩ := List.nodup_cons.mp hnd
    simp only [addOrderPairs]
    rw [ih hr _ a b hab, weight_foldl_linkPair p rest hp]
    have hcb : rest.count b = if b ∈ rest then 1 else 0 := by
      by_cases h : b ∈ rest
      · rw [if_pos h]; exact List.count_eq_one_of_mem hr h
      · rw [if_neg h]; exact List.count_eq_zero_of_not_mem h
    have hca : rest.count a = if a ∈ rest then 1 else 0 := by
      by_cases h : a ∈ rest
      · rw [if_pos h]; exact List.count_eq_one_of_mem hr h
      · rw [if_neg h]; exact List.count_eq_zero_of_not_mem h
    rw [hcb, hca]
    by_cases hap : a = p <;> by_cases hbp : b = p <;>
      by_cases har : a ∈ rest <;> by_cases hbr : b ∈ rest <;>
      simp_all [List.mem_cons] <;> omega

theorem weight_nil (a b : String) : weight [] a b = 0 := by
  simp [weight, alookup, lookupD]

theorem weight_build_fold (a b : String) (hab : a ≠ b) :
    ∀ (orders : List Order) (g : Graph),
    weight
      (orders.foldl
        (fun g order =>
          addOrderPairs (dedupFirst (order.items.map (fun item => item.product_id))) g) g) a b
      = weight g a b
        + orders.countP (fun o =>
            decide (a ∈ o.items.map (fun item => item.product_id))
              && decide (b ∈ o.items.map (fun item => item.product_id))) := by
  intro orders
  induction orders with
  | nil => intro g; simp
  | cons o os ih =>
    intro g
    rw [List.foldl_cons, ih, weight_addOrderPairs _ (nodup_dedupFirst _) g a b hab]
    rw [List.countP_cons]
    by_cases hao : a ∈ o.items.map (fun item => item.product_id) <;>
      by_cases hbo : b ∈ o.items.map (fun item => item.product_id) <;>
      simp [hao, hbo, mem_dedupFirst] <;> omega

theorem weight_build_graph (orders : List Order) (a b : String) (hab : a ≠ b) :
    weight (build_recommendation_graph orders) a b
      = orders.countP (fun o =>
          decide (a ∈ o.items.map (fun item => item.product_id))
            && decide (b ∈ o.items.map (fun item => item.product_id))) := by
  unfold build_recommendation_graph
  rw [weight_build_fold a b hab orders [], weight_nil]
  simp

theorem self_none_bumpEdge (p1 p2 : String) (hne : p1 ≠ p2) (g : Graph)
    (h : ∀ k, alookup k ((alookup k g).getD []) = none) :
    ∀ k, alookup k ((alookup k (bumpEdge p1 p2 g)).getD []) = none := by
  intro k
  rw [alookup_bumpEdge]
  by_cases hk : k = p1
  · subst hk
    rw [if_pos rfl]
    simp only [Option.getD_some]
    rw [alookup_bumpCount_ne p2 k _ hne]
    exact h k
  · rw [if_neg hk]; exact h k

theorem self_none_foldl (p1 : String) :
    ∀ (rest : List String), (∀ x ∈ rest, p1 ≠ x) → ∀ (g : Graph),
    (∀ k, alookup k ((alookup k g).getD []) = none) →
    ∀ k, alookup k ((alookup k (rest.foldl (fun acc p2 => linkPair p1 p2 acc) g)).getD []) = none := by
  intro rest
  induction rest with
  | nil => intro _ g hg k; exact hg k
  | cons p2 rest ih =>
    intro hne g hg k
    rw [List.foldl_cons]
    have hp2 : p1 ≠ p2 := hne p2 (List.mem_cons_self p2 rest)
    refine ih (fun x hx => hne x (List.mem_cons_of_mem p2 hx)) _ ?_ k
    unfold linkPair
    exact self_none_bumpEdge p2 p1 (fun hh => hp2 hh.symm) _
      (self_none_bumpEdge p1 p2 hp2 g hg)

theorem self_none_addOrderPairs :
    ∀ (ids : List String), ids.Nodup → ∀ (g : Graph),
    (∀ k, alookup k ((alookup k g).getD []) = none) →
    ∀ k, alookup k ((alookup k (addOrderPairs ids g)).getD []) = none := by
  intro ids
  induction ids with
  | nil => intro _ g hg k; exact hg k
  | cons p rest ih =>
    intro hnd g hg k
    obtain ⟨hp, hr⟩ := List.nodup_cons.mp hnd
    simp only [addOrderPairs]
    refine ih hr _ ?_ k
    exact self_none_foldl p rest (fun x hx hh => hp (hh ▸ hx)) g hg

theorem self_none_build (orders : List Order) :
    ∀ k, alookup k ((alookup k (build_recommendation_graph orders)).getD []) = none := by
  unfold build_recommendation_graph
  suffices h : ∀ (os : List Order) (g : Graph),
      (∀ k, alookup k ((alookup k g).getD []) = none) →
      ∀ k, alookup k ((alookup k
        (os.foldl (fun g order =>
          addOrderPairs (dedupFirst (order.items.map (fun item => item.product_id))) g) g)).getD [])
        = none by
    exact h orders [] (fun k => by simp [alookup])
  intro os
  induction os with
  | nil => intro g hg k; exact hg k
  | cons o os ih =>
    intro g hg k
    rw [List.foldl_cons]
    exact ih _ (self_none_addOrderPairs _ (nodup_dedupFirst _) g hg) k

/-- C5: the co-purchase graph built from any order history is symmetric and
self-loop-free: the stored weight from `a` to `b` equals the stored weight
from `b` to `a`; for distinct `a` and `b` it equals the number of orders
whose distinct-item set contains both; and `a` never occurs as a key of its
own neighbor map, even when an order has duplicate line items of `a`. -/
theorem C5_graph_invariants (orders : List Order) (a b : String) :
    weight (build_recommendation_graph orders) a b
        = weight (build_recommendation_graph orders) b a
    ∧ (a ≠ b → weight (build_recommendation_graph orders) a b
        = orders.countP (fun o =>
            decide (a ∈ o.items.map (fun item => item.product_id))
              && decide (b ∈ o.items.map (fun item => item.product_id))))
    ∧ alookup a ((alookup a (build_recommendation_graph orders)).getD []) = none := by
  refine ⟨?_, fun hab => weight_build_graph orders a b hab, self_none_build orders a⟩
  by_cases hab : a = b
  · subst hab; rfl
  · rw [weight_build_graph orders a b hab, weight_build_graph orders b a (fun h => hab h.symm)]
    apply List.countP_congr
    intro o _
    by_cases hao : a ∈ o.items.map (fun item => item.product_id) <;>
      by_cases hbo : b ∈ o.items.map (fun item => item.product_id) <;>
      simp [hao, hbo]

/-- Witness for C5 at a concrete order history: products A and B co-occur in
two of the three demo orders. -/
theorem C5_graph_invariants_witness :
    weight (build_recommendation_graph demoOrders) "A" "B" =
      demoOrders.countP (fun o =>
        decide ("A" ∈ o.items.map (fun item => item.product_id))
          && decide ("B" ∈ o.items.map (fun item => item.product_id))) ∧
    weight (build_recommendation_graph demoOrders) "A" "B" = 2 := by
  refine ⟨(C5_graph_invariants demoOrders "A" "B").2.1 (by decide), by decide⟩

/-- C1 (code bug): evaluating `filter_products` at a concrete store with only
`sort_by="price_asc"` set: the catalog store afterwards holds the same
products in a different order — the in-place sort leaked through the alias
returned by `get_all_products`. -/
theorem C1_sort_only_query_mutates_store :
    (filter_products demoStore none none none none none (some "price_asc") none 1 15).2
        ≠ demoStore ∧
    ((filter_products demoStore none none none none none (some "price_asc") none 1 15).2).Perm
      demoStore := by
  constructor
  · decide
  · decide

theorem filterByCategories_nil (c : Option (List String)) : filterByCategories c [] = [] := by
  cases c with
  | none => rfl
  | some l => simp [filterByCategories]

theorem filterByBrands_nil (c : Option (List String)) : filterByBrands c [] = [] := by
  cases c with
  | none => rfl
  | some l => simp [filterByBrands]

theorem filterByMinPrice_nil (c : Option ℚ) : filterByMinPrice c [] = [] := by
  cases c with
  | none => rfl
  | some m => rfl

theorem filterByMaxPrice_nil (c : Option ℚ) : filterByMaxPrice c [] = [] := by
  cases c with
  | none => rfl
  | some m => rfl

theorem filterByAvailability_nil (c : Option String) : filterByAvailability c [] = [] := by
  cases c with
  | none => rfl
  | some a => simp [filterByAvailability]

theorem sortProducts_nil (sb : Option String) : sortProducts sb [] = [] := by
  unfold sortProducts
  split_ifs <;> rfl

theorem applySearch_some (s : String) (ps : List Product) :
    applySearch (some s) ps = if searchActive (some s) then search_with_index s ps else ps := rfl

/-- C7: for every catalog and any other filter arguments, a search string
whose token set is empty but which contains a non-whitespace character (a
punctuation-only query) makes `filter_products` match zero products, while a
search string with no non-whitespace character (empty or all whitespace)
leaves the call identical to one with no search at all — the two cases are
never conflated. -/
theorem C7_punctuation_vs_whitespace (store : List Product) (s : String)
    (cats brs : Option (List String)) (minp maxp : Option ℚ)
    (sortb avail : Option String) (page limit : ℕ) :
    (normalize_tokens s.toList = [] → s.toList.any (fun c => !isPySpace c) = true →
      (filter_products store (some s) cats brs minp maxp sortb avail page limit).1.items = [] ∧
      (filter_products store (some s) cats brs minp maxp sortb avail page limit).1.total = 0) ∧
    (s.toList.any (fun c => !isPySpace c) = false →
      filter_products store (some s) cats brs minp maxp sortb avail page limit
        = filter_products store none cats brs minp maxp sortb avail page limit) := by
  constructor
  · intro h0 h1
    have hsne : s ≠ "" := by
      intro h
      subst h
      exact absurd h1 (by decide)
    have hie : s.isEmpty = false := by
      cases he : s.isEmpty
      · rfl
      · exact absurd ((String.isEmpty_iff s).mp he) hsne
    have hsa : searchActive (some s) = true := by
      show (!s.isEmpty && s.toList.any (fun c => !isPySpace c)) = true
      rw [hie, h1]
      rfl
    have hsearch : search_with_index s store = [] := by
      unfold search_with_index
      rw [h0]
    have hmatched : matchedProducts store (some s) cats brs minp maxp sortb avail = [] := by
      unfold matchedProducts
      rw [applySearch_some, hsa, if_pos rfl, hsearch, filterByCategories_nil, filterByBrands_nil,
        filterByMinPrice_nil, filterByMaxPrice_nil, filterByAvailability_nil, sortProducts_nil]
    constructor
    · show ((matchedProducts store (some s) cats brs minp maxp sortb avail).drop
        ((page - 1) * limit)).take limit = []
      rw [hmatched]
      simp
    · show (matchedProducts store (some s) cats brs minp maxp sortb avail).length = 0
      rw [hmatched]
      rfl
  · intro h
    have hsa : searchActive (some s) = false := by
      show (!s.isEmpty && s.toList.any (fun c => !isPySpace c)) = false
      rw [h]
      simp
    have hm : matchedProducts store (some s) cats brs minp maxp sortb avail
        = matchedProducts store none cats brs minp maxp sortb avail := by
      unfold matchedProducts
      rw [applySearch_some, hsa]
      rfl
    have hr : productsRebound (some s) cats brs minp maxp avail
        = productsRebound none cats brs minp maxp avail := by
      unfold productsRebound
      rw [hsa]
      rfl
    unfold filter_products
    rw [hm, hr]

theorem ceil_div_spec (t l : ℕ) (hl : 0 < l) :
    t ≤ ((t + l - 1) / l) * l ∧ ∀ m : ℕ, t ≤ m * l → (t + l - 1) / l ≤ m := by
  by_cases ht : t = 0
  · subst ht
    constructor
    · simp
    · intro m _
      have : (0 + l - 1) / l = 0 := Nat.div_eq_of_lt (by omega)
      omega
  · have hkey : (t + l - 1) / l = (t - 1) / l + 1 := by
      have heq : t + l - 1 = (t - 1) + l := by omega
      rw [heq, Nat.add_div_right _ hl]
    constructor
    · rw [hkey, Nat.succ_mul]
      have hdm := Nat.div_add_mod (t - 1) l
      have hmlt : (t - 1) % l < l := Nat.mod_lt _ hl
      have hcomm : l * ((t - 1) / l) = ((t - 1) / l) * l := Nat.mul_comm _ _
      rw [hcomm] at hdm
      omega
    · intro m hm
      rw [hkey]
      have hlt : t - 1 < m * l := by
        have h2 : 0 < t := Nat.pos_of_ne_zero ht
        omega
      have := (Nat.div_lt_iff_lt_mul hl).mpr hlt
      omega

/-- C9: requesting a 1-based page strictly beyond the last non-empty page,
with page size at least 1, returns without error an empty item slice
together with the true pre-pagination match count as `total`, the requested
page and limit, and a `total_pages` that is exactly the ceiling of total
over limit (the least `m` with `total ≤ m * limit`). -/
theorem C9_pagination_beyond_last_page (store : List Product) (search : Option String)
    (cats brs : Option (List String)) (minp maxp : Option ℚ) (sortb avail : Option String)
    (page limit : ℕ) (hl : 0 < limit)
    (hp : (filter_products store search cats brs minp maxp sortb avail page limit).1.total_pages
      < page) :
    (filter_products store search cats brs minp maxp sortb avail page limit).1.items = [] ∧
    (filter_products store search cats brs minp maxp sortb avail page limit).1.total
      = (matchedProducts store search cats brs minp maxp sortb avail).length ∧
    (filter_products store search cats brs minp maxp sortb avail page limit).1.page = page ∧
    (filter_products store search cats brs minp maxp sortb avail page limit).1.limit = limit ∧
    (filter_products store search cats brs minp maxp sortb avail page limit).1.total
      ≤ (filter_products store search cats brs minp maxp sortb avail page limit).1.total_pages
        * limit ∧
    ∀ m : ℕ,
      (filter_products store search cats brs minp maxp sortb avail page limit).1.total ≤ m * limit →
      (filter_products store search cats brs minp maxp sortb avail page limit).1.total_pages ≤ m := by
  have hceil := ceil_div_spec (matchedProducts store search cats brs minp maxp sortb avail).length
    limit hl
  refine ⟨?_, rfl, rfl, rfl, hceil.1, hceil.2⟩
  show ((matchedProducts store search cats brs minp maxp sortb avail).drop
    ((page - 1) * limit)).take limit = []
  have hp' : ((matchedProducts store search cats brs minp maxp sortb avail).length + limit - 1)
      / limit < page := hp
  have h2 : ((matchedProducts store search cats brs minp maxp sortb avail).length + limit - 1)
      / limit ≤ page - 1 := by omega
  have h3 := Nat.mul_le_mul_right limit h2
  have h4 : (matchedProducts store search cats brs minp maxp sortb avail).length
      ≤ (page - 1) * limit := le_trans hceil.1 h3
  rw [List.drop_eq_nil_of_le h4, List.take_nil]

/-- Witness for C9 at a concrete store: 3 matches, limit 1, page 5. -/
theorem C9_pagination_witness :
    0 < 1 ∧
    (filter_products demoStore none none none none none none none 5 1).1.total_pages < 5 ∧
    (filter_products demoStore none none none none none none none 5 1).1.items = [] := by
  refine ⟨by decide, by decide, ?_⟩
  exact (C9_pagination_beyond_last_page demoStore none none none none none none none 5 1
    (by decide) (by decide)).1

/-- Witness for C7 at concrete inputs: the punctuation-only query matches
nothing while the all-whitespace query equals the no-search call. -/
theorem C7_punctuation_vs_whitespace_witness :
    (filter_products demoStore (some "!!!") none none none none none none 1 15).1.total = 0 ∧
    filter_products demoStore (some "   ") none none none none none none 1 15
      = filter_products demoStore none none none none none none none 1 15 := by
  constructor
  · exact ((C7_punctuation_vs_whitespace demoStore "!!!" none none none none none none 1 15).1
      (by decide) (by decide)).2
  · exact (C7_punctuation_vs_whitespace demoStore "   " none none none none none none 1 15).2
      (by decide)

theorem mem_foldl_inter {α τ : Type} [DecidableEq α] (idx : τ → List α) :
    ∀ (ts : List τ) (init : List α) (x : α),
    x ∈ ts.foldl (fun acc t => acc.filter (fun i => decide (i ∈ idx t))) init
      ↔ x ∈ init ∧ ∀ t ∈ ts, x ∈ idx t := by
  intro ts
  induction ts with
  | nil => intro init x; simp
  | cons t ts ih =>
    intro init x
    rw [List.foldl_cons, ih, List.mem_filter]
    simp only [decide_eq_true_eq, List.forall_mem_cons]
    tauto

theorem mem_SEARCH_INDEX (products : List Product) (tok : List Char) (i : String) :
    i ∈ SEARCH_INDEX products tok
      ↔ ∃ p ∈ products, tok ∈ normalize_tokens (productBlob p) ∧ p.id = i := by
  simp [SEARCH_INDEX, List.mem_map, List.mem_filter]
  tauto

theorem mem_index_self (all : List Product) (hid : (all.map (fun p => p.id)).Nodup)
    (p : Product) (hp : p ∈ all) (tok : List Char) :
    p.id ∈ SEARCH_INDEX all tok ↔ tok ∈ normalize_tokens (productBlob p) := by
  rw [mem_SEARCH_INDEX]
  constructor
  · rintro ⟨r, hr, hrt, hri⟩
    have : r = p := List.inj_on_of_nodup_map hid hr hp hri
    subst this
    exact hrt
  · intro h
    exact ⟨p, hp, h, rfl⟩

theorem search_with_index_eq_filter (all : List Product) (q : String)
    (hid : (all.map (fun p => p.id)).Nodup)
    (hne : normalize_tokens q.toList ≠ []) :
    search_with_index q all
      = all.filter (fun p =>
          (normalize_tokens q.toList).all
            (fun t => decide (t ∈ normalize_tokens (productBlob p)))) := by
  cases hq : normalize_tokens q.toList with
  | nil => exact absurd hq hne
  | cons t ts =>
    unfold search_with_index
    rw [hq]
    apply List.filter_congr
    intro p hp
    rw [Bool.eq_iff_iff]
    simp only [decide_eq_true_eq, List.all_eq_true]
    rw [mem_foldl_inter]
    constructor
    · rintro ⟨h1, h2⟩ u hu
      rcases List.mem_cons.mp hu with rfl | hu'
      · exact (mem_index_self all hid p hp u).mp h1
      · exact (mem_index_self all hid p hp u).mp (h2 u hu')
    · intro h
      constructor
      · exact (mem_index_self all hid p hp t).mpr (h t (List.mem_cons_self t ts))
      · intro u hu
        exact (mem_index_self all hid p hp u).mpr (h u (List.mem_cons_of_mem t hu))

/-- C6: for a catalog with distinct product ids and a query whose token set
is non-empty, the indexed search returns exactly the products whose indexed
blob contains every query token, in catalog order; and any query with the
same token set returns the same result, so the intersection is independent
of token order and posting-set order. -/
theorem C6_search_is_token_intersection (all : List Product) (q : String)
    (hid : (all.map (fun p => p.id)).Nodup)
    (hne : normalize_tokens q.toList ≠ []) :
    search_with_index q all
      = all.filter (fun p =>
          (normalize_tokens q.toList).all
            (fun t => decide (t ∈ normalize_tokens (productBlob p)))) ∧
    ∀ r : String,
      (∀ t, t ∈ normalize_tokens r.toList ↔ t ∈ normalize_tokens q.toList) →
      search_with_index r all = search_with_index q all := by
  refine ⟨search_with_index_eq_filter all q hid hne, ?_⟩
  intro r hr
  have hner : normalize_tokens r.toList ≠ [] := by
    cases hq : normalize_tokens q.toList with
    | nil => exact absurd hq hne
    | cons t ts =>
      exact List.ne_nil_of_mem ((hr t).mpr (hq ▸ List.mem_cons_self t ts))
  rw [search_with_index_eq_filter all r hid hner, search_with_index_eq_filter all q hid hne]
  apply List.filter_congr
  intro p _
  rw [Bool.eq_iff_iff]
  simp only [List.all_eq_true]
  constructor
  · intro h u hu
    exact h u ((hr u).mpr hu)
  · intro h u hu
    exact h u ((hr u).mp hu)

/-- Witness for C6 at a concrete catalog and the query string `nike`. -/
theorem C6_search_witness :
    (demoStore.map (fun p => p.id)).Nodup ∧
    normalize_tokens ("nike" : String).toList ≠ [] ∧
    search_with_index "nike" demoStore
      = demoStore.filter (fun p =>
          (normalize_tokens ("nike" : String).toList).all
            (fun t => decide (t ∈ normalize_tokens (productBlob p)))) := by
  refine ⟨by decide, by decide, ?_⟩
  exact (C6_search_is_token_intersection demoStore "nike" (by decide) (by decide)).1

theorem filter_swap {α : Type} (p q : α → Bool) (l : List α) :
    (l.filter p).filter q = (l.filter q).filter p := by
  rw [List.filter_filter, List.filter_filter]
  exact List.filter_congr (fun x _ => Bool.and_comm (q x) (p x))

theorem filter_like_comm {f g : List Product → List Product}
    (hf : f = (fun l => l) ∨ ∃ q, f = fun l => l.filter q)
    (hg : g = (fun l => l) ∨ ∃ q, g = fun l => l.filter q) (l : List Product) :
    f (g l) = g (f l) := by
  rcases hf with rfl | ⟨qf, rfl⟩
  · rfl
  · rcases hg with rfl | ⟨qg, rfl⟩
    · rfl
    · exact filter_swap qg qf l

theorem filterByCategories_filterLike (cats : Option (List String)) :
    filterByCategories cats = (fun l => l)
      ∨ ∃ q, filterByCategories cats = fun l => l.filter q := by
  cases cats with
  | none => exact Or.inl rfl
  | some cs =>
    by_cases h : cs.isEmpty
    · left
      funext l
      simp [filterByCategories, h]
    · right
      refine ⟨fun p =>
        decide (normalize_key p.category.toList ∈ cs.map (fun c => normalize_key c.toList)), ?_⟩
      funext l
      simp [filterByCategories, h]

theorem filterByBrands_filterLike (brs : Option (List String)) :
    filterByBrands brs = (fun l => l)
      ∨ ∃ q, filterByBrands brs = fun l => l.filter q := by
  cases brs with
  | none => exact Or.inl rfl
  | some bs =>
    by_cases h : bs.isEmpty
    · left
      funext l
      simp [filterByBrands, h]
    · right
      refine ⟨fun p =>
        decide (normalize_key p.brand.toList ∈ bs.map (fun b => normalize_key b.toList)), ?_⟩
      funext l
      simp [filterByBrands, h]

theorem filterByMinPrice_filterLike (m : Option ℚ) :
    filterByMinPrice m = (fun l => l)
      ∨ ∃ q, filterByMinPrice m = fun l => l.filter q := by
  cases m with
  | none => exact Or.inl rfl
  | some x => exact Or.inr ⟨fun p => decide (x ≤ p.price), rfl⟩

theorem filterByMaxPrice_filterLike (m : Option ℚ) :
    filterByMaxPrice m = (fun l => l)
      ∨ ∃ q, filterByMaxPrice m = fun l => l.filter q := by
  cases m with
  | none => exact Or.inl rfl
  | some x => exact Or.inr ⟨fun p => decide (p.price ≤ x), rfl⟩

theorem filterByAvailability_filterLike (a : Option String) :
    filterByAvailability a = (fun l => l)
      ∨ ∃ q, filterByAvailability a = fun l => l.filter q := by
  cases a with
  | none => exact Or.inl rfl
  | some s =>
    by_cases h1 : s.isEmpty
    · left
      funext l
      simp [filterByAvailability, h1]
    · by_cases h2 : s = "in-stock"
      · right
        refine ⟨fun p => p.in_stock, ?_⟩
        subst h2
        funext l
        have he : ("in-stock" : String).isEmpty = false := by decide
        simp [filterByAvailability, he]
      · by_cases h3 : s = "sold-out"
        · right
          refine ⟨fun p => !p.in_stock, ?_⟩
          subst h3
          funext l
          have he : ("sold-out" : String).isEmpty = false := by decide
          have hne : ¬ ("sold-out" : String) = "in-stock" := by decide
          simp [filterByAvailability, he, hne]
        · left
          funext l
          simp [filterByAvailability, h1, h2, h3]

theorem swap_outer_inner {f1 f2 f3 f4 : List Product → List Product}
    (h1 : f1 = (fun l => l) ∨ ∃ q, f1 = fun l => l.filter q)
    (h2 : f2 = (fun l => l) ∨ ∃ q, f2 = fun l => l.filter q)
    (h3 : f3 = (fun l => l) ∨ ∃ q, f3 = fun l => l.filter q)
    (h4 : f4 = (fun l => l) ∨ ∃ q, f4 = fun l => l.filter q)
    (l : List Product) :
    f1 (f2 (f3 (f4 l))) = f4 (f2 (f3 (f1 l))) :=
  calc f1 (f2 (f3 (f4 l)))
      = f2 (f1 (f3 (f4 l))) := filter_like_comm h1 h2 _
    _ = f2 (f3 (f1 (f4 l))) := congrArg f2 (filter_like_comm h1 h3 _)
    _ = f2 (f3 (f4 (f1 l))) := congrArg f2 (congrArg f3 (filter_like_comm h1 h4 _))
    _ = f2 (f4 (f3 (f1 l))) := congrArg f2 (filter_like_comm h3 h4 _)
    _ = f4 (f2 (f3 (f1 l))) := filter_like_comm h2 h4 _

theorem swap_pairs {f1 f2 f3 f4 : List Product → List Product}
    (h1 : f1 = (fun l => l) ∨ ∃ q, f1 = fun l => l.filter q)
    (h2 : f2 = (fun l => l) ∨ ∃ q, f2 = fun l => l.filter q)
    (h3 : f3 = (fun l => l) ∨ ∃ q, f3 = fun l => l.filter q)
    (h4 : f4 = (fun l => l) ∨ ∃ q, f4 = fun l => l.filter q)
    (l : List Product) :
    f1 (f2 (f3 (f4 l))) = f3 (f4 (f1 (f2 l))) :=
  calc f1 (f2 (f3 (f4 l)))
      = f1 (f3 (f2 (f4 l))) := congrArg f1 (filter_like_comm h2 h3 _)
    _ = f1 (f3 (f4 (f2 l))) := congrArg f1 (congrArg f3 (filter_like_comm h2 h4 _))
    _ = f3 (f1 (f4 (f2 l))) := filter_like_comm h1 h3 _
    _ = f3 (f4 (f1 (f2 l))) := congrArg f3 (filter_like_comm h1 h4 _)

theorem rotate3 {f1 f2 f3 : List Product → List Product}
    (h1 : f1 = (fun l => l) ∨ ∃ q, f1 = fun l => l.filter q)
    (h2 : f2 = (fun l => l) ∨ ∃ q, f2 = fun l => l.filter q)
    (h3 : f3 = (fun l => l) ∨ ∃ q, f3 = fun l => l.filter q)
    (l : List Product) :
    f1 (f2 (f3 l)) = f3 (f1 (f2 l)) :=
  calc f1 (f2 (f3 l))
      = f1 (f3 (f2 l)) := congrArg f1 (filter_like_comm h2 h3 _)
    _ = f3 (f1 (f2 l)) := filter_like_comm h1 h3 _

theorem foldl_min_mem (h : ℚ) (t : List ℚ) : t.foldl min h ∈ h :: t := by
  induction t generalizing h with
  | nil => simp
  | cons a t ih =>
    rw [List.foldl_cons]
    rcases List.mem_cons.mp (ih (min h a)) with heq | hmem
    · rcases min_choice h a with h1 | h1
      · rw [heq, h1]; exact List.mem_cons_self _ _
      · rw [heq, h1]
        exact List.mem_cons_of_mem _ (List.mem_cons_self _ _)
    · exact List.mem_cons_of_mem _ (List.mem_cons_of_mem _ hmem)

theorem foldl_min_le (h : ℚ) (t : List ℚ) : ∀ x ∈ h :: t, t.foldl min h ≤ x := by
  induction t generalizing h with
  | nil =>
    intro x hx
    rcases List.mem_cons.mp hx with rfl | hx
    · exact le_refl _
    · simp at hx
  | cons a t ih =>
    intro x hx
    rw [List.foldl_cons]
    rcases List.mem_cons.mp hx with rfl | hx'
    · exact le_trans (ih (min x a) (min x a) (List.mem_cons_self _ _)) (min_le_left x a)
    · rcases List.mem_cons.mp hx' with rfl | hx''
      · exact le_trans (ih (min h x) (min h x) (List.mem_cons_self _ _)) (min_le_right h x)
      · exact ih (min h a) x (List.mem_cons_of_mem _ hx'')

theorem foldl_max_mem (h : ℚ) (t : List ℚ) : t.foldl max h ∈ h :: t := by
  induction t generalizing h with
  | nil => simp
  | cons a t ih =>
    rw [List.foldl_cons]
    rcases List.mem_cons.mp (ih (max h a)) with heq | hmem
    · rcases max_choice h a with h1 | h1
      · rw [heq, h1]; exact List.mem_cons_self _ _
      · rw [heq, h1]
        exact List.mem_cons_of_mem _ (List.mem_cons_self _ _)
    · exact List.mem_cons_of_mem _ (List.mem_cons_of_mem _ hmem)

theorem le_foldl_max (h : ℚ) (t : List ℚ) : ∀ x ∈ h :: t, x ≤ t.foldl max h := by
  induction t generalizing h with
  | nil =>
    intro x hx
    rcases List.mem_cons.mp hx with rfl | hx
    · exact le_refl _
    · simp at hx
  | cons a t ih =>
    intro x hx
    rw [List.foldl_cons]
    rcases List.mem_cons.mp hx with rfl | hx'
    · exact le_trans (le_max_left x a) (ih (max x a) (max x a) (List.mem_cons_self _ _))
    · rcases List.mem_cons.mp hx' with rfl | hx''
      · exact le_trans (le_max_right h x) (ih (max h x) (max h x) (List.mem_cons_self _ _))
      · exact ih (max h a) x (List.mem_cons_of_mem _ hx'')

/-- C3: every facet dimension is counted over a context that omits its own
filter and applies every other active constraint: the category counts use
search + brand + price + availability, the brand counts use search +
category + price + availability, the availability counts use search +
category + brand + price; consequently each facet is independent of its own
filter argument, so selecting one category or brand never hides siblings
from that facet. -/
theorem C3_facet_exclude_self (store : List Product) (search : Option String)
    (cats brs : Option (List String)) (minp maxp : Option ℚ) (avail : Option String) :
    (get_faceted_metadata store search cats brs minp maxp avail).categories
        = facetEntries (fun p => p.category)
            (specCategoryContext store search brs minp maxp avail) ∧
    (get_faceted_metadata store search cats brs minp maxp avail).brands
        = facetEntries (fun p => p.brand)
            (specBrandContext store search cats minp maxp avail) ∧
    (get_faceted_metadata store search cats brs minp maxp avail).availability
        = [⟨"In Stock", "in-stock",
            (specAvailabilityContext store search cats brs minp maxp).countP
              (fun p => p.in_stock)⟩,
           ⟨"Sold Out", "sold-out",
            (specAvailabilityContext store search cats brs minp maxp).countP
              (fun p => !p.in_stock)⟩] ∧
    (get_faceted_metadata store search cats brs minp maxp avail).categories
        = (get_faceted_metadata store search none brs minp maxp avail).categories ∧
    (get_faceted_metadata store search cats brs minp maxp avail).brands
        = (get_faceted_metadata store search cats none minp maxp avail).brands ∧
    (get_faceted_metadata store search cats brs minp maxp avail).availability
        = (get_faceted_metadata store search cats brs minp maxp none).availability := by
  have hcat :
      filterByBrands brs (filterByMaxPrice maxp (filterByMinPrice minp
        (filterByAvailability avail (applySearch search store))))
        = specCategoryContext store search brs minp maxp avail :=
    swap_outer_inner (filterByBrands_filterLike brs) (filterByMaxPrice_filterLike maxp)
      (filterByMinPrice_filterLike minp) (filterByAvailability_filterLike avail) _
  have hbrand :
      filterByCategories cats (filterByMaxPrice maxp (filterByMinPrice minp
        (filterByAvailability avail (applySearch search store))))
        = specBrandContext store search cats minp maxp avail :=
    swap_outer_inner (filterByCategories_filterLike cats) (filterByMaxPrice_filterLike maxp)
      (filterByMinPrice_filterLike minp) (filterByAvailability_filterLike avail) _
  have havail :
      filterByBrands brs (filterByCategories cats (filterByMaxPrice maxp
        (filterByMinPrice minp (applySearch search store))))
        = specAvailabilityContext store search cats brs minp maxp :=
    swap_pairs (filterByBrands_filterLike brs) (filterByCategories_filterLike cats)
      (filterByMaxPrice_filterLike maxp) (filterByMinPrice_filterLike minp) _
  refine ⟨?_, ?_, ?_, rfl, rfl, rfl⟩
  · exact congrArg (facetEntries (fun p => p.category)) hcat
  · exact congrArg (facetEntries (fun p => p.brand)) hbrand
  · exact congrArg (fun ctx : List Product =>
      [(⟨"In Stock", "in-stock", ctx.countP (fun p => p.in_stock)⟩ : AvailabilityEntry),
       ⟨"Sold Out", "sold-out", ctx.countP (fun p => !p.in_stock)⟩]) havail

/-- C8: the returned price bounds are the minimum and maximum price over the
candidate set that applies the search, category, brand and availability
filters while ignoring the requested price bounds. -/
theorem C8_price_bounds_available_range (store : List Product) (search : Option String)
    (cats brs : Option (List String)) (minp maxp : Option ℚ) (avail : Option String)
    (hne : specPriceContext store search cats brs avail ≠ []) :
    ((get_faceted_metadata store search cats brs minp maxp avail).minPrice
        ∈ (specPriceContext store search cats brs avail).map (fun p => p.price)) ∧
    (∀ p ∈ specPriceContext store search cats brs avail,
      (get_faceted_metadata store search cats brs minp maxp avail).minPrice ≤ p.price) ∧
    ((get_faceted_metadata store search cats brs minp maxp avail).maxPrice
        ∈ (specPriceContext store search cats brs avail).map (fun p => p.price)) ∧
    (∀ p ∈ specPriceContext store search cats brs avail,
      p.price ≤ (get_faceted_metadata store search cats brs minp maxp avail).maxPrice) := by
  have hctx :
      filterByBrands brs (filterByCategories cats
        (filterByAvailability avail (applySearch search store)))
        = specPriceContext store search cats brs avail :=
    rotate3 (filterByBrands_filterLike brs) (filterByCategories_filterLike cats)
      (filterByAvailability_filterLike avail) _
  cases hps : specPriceContext store search cats brs avail with
  | nil => exact absurd hps hne
  | cons p0 ps =>
    have hcode :
        filterByBrands brs (filterByCategories cats
          (filterByAvailability avail (applySearch search store))) = p0 :: ps := by
      rw [hctx, hps]
    have hmin : (get_faceted_metadata store search cats brs minp maxp avail).minPrice
        = (ps.map (fun p => p.price)).foldl min p0.price := by
      show (match (filterByBrands brs (filterByCategories cats
          (filterByAvailability avail (applySearch search store)))).map (fun p => p.price) with
        | [] => (0 : ℚ)
        | h :: t => t.foldl min h) = _
      rw [hcode]
      simp
    have hmax : (get_faceted_metadata store search cats brs minp maxp avail).maxPrice
        = (ps.map (fun p => p.price)).foldl max p0.price := by
      show (match (filterByBrands brs (filterByCategories cats
          (filterByAvailability avail (applySearch search store)))).map (fun p => p.price) with
        | [] => (0 : ℚ)
        | h :: t => t.foldl max h) = _
      rw [hcode]
      simp
    have hmem : ∀ p ∈ p0 :: ps, p.price ∈ p0.price :: ps.map (fun q => q.price) := by
      intro p hp
      rcases List.mem_cons.mp hp with rfl | hp'
      · exact List.mem_cons_self _ _
      · exact List.mem_cons_of_mem _ (List.mem_map_of_mem _ hp')
    refine ⟨?_, ?_, ?_, ?_⟩
    · rw [hmin]
      have := foldl_min_mem p0.price (ps.map (fun p => p.price))
      simpa using this
    · intro p hp
      rw [hmin]
      exact foldl_min_le p0.price _ p.price (hmem p hp)
    · rw [hmax]
      have := foldl_max_mem p0.price (ps.map (fun p => p.price))
      simpa using this
    · intro p hp
      rw [hmax]
      exact le_foldl_max p0.price _ p.price (hmem p hp)

/-- Witness for C8 at a concrete catalog with no active filters: the bounds
are 30 and 120 and they bracket every candidate price. -/
theorem C8_price_bounds_witness :
    specPriceContext demoStore none none none none ≠ [] ∧
    (get_faceted_metadata demoStore none none none none none none).minPrice
      ∈ (specPriceContext demoStore none none none none).map (fun p => p.price) ∧
    (get_faceted_metadata demoStore none none none none none none).minPrice = 30 := by
  refine ⟨by decide, ?_, by decide⟩
  exact (C8_price_bounds_available_range demoStore none none none none none none
    (by decide)).1

theorem mem_keys_bumpCount {α : Type} [DecidableEq α] (k x : α) (m : List (α × ℕ)) :
    x ∈ (bumpCount k m).map Prod.fst ↔ x = k ∨ x ∈ m.map Prod.fst := by
  induction m with
  | nil => simp [bumpCount]
  | cons kv rest ih =>
    obtain ⟨a, v⟩ := kv
    by_cases hak : a = k
    · subst hak
      simp [bumpCount]
    · simp [bumpCount, hak, ih]
      tauto

theorem keys_bumpCount_nodup {α : Type} [DecidableEq α] (k : α) (m : List (α × ℕ))
    (h : (m.map Prod.fst).Nodup) : ((bumpCount k m).map Prod.fst).Nodup := by
  induction m with
  | nil => simp [bumpCount]
  | cons kv rest ih =>
    obtain ⟨a, v⟩ := kv
    by_cases hak : a = k
    · subst hak
      simpa [bumpCount] using h
    · simp only [List.map_cons, List.nodup_cons] at h
      simp only [bumpCount, if_neg hak, List.map_cons, List.nodup_cons]
      refine ⟨?_, ih h.2⟩
      rw [mem_keys_bumpCount]
      rintro (rfl | hmem)
      · exact hak rfl
      · exact h.1 hmem

theorem nodupkeys_bumpEdge (p1 p2 : String) (g : Graph)
    (h : ∀ k m, alookup k g = some m → (m.map Prod.fst).Nodup) :
    ∀ k m, alookup k (bumpEdge p1 p2 g) = some m → (m.map Prod.fst).Nodup := by
  intro k m hm
  rw [alookup_bumpEdge] at hm
  by_cases hk : k = p1
  · rw [if_pos hk, Option.some_inj] at hm
    subst hm
    apply keys_bumpCount_nodup
    cases halk : alookup p1 g with
    | none => simp
    | some mm => simpa using h p1 mm halk
  · rw [if_neg hk] at hm
    exact h k m hm

theorem nodupkeys_foldl (p1 : String) :
    ∀ (rest : List String) (g : Graph),
    (∀ k m, alookup k g = some m → (m.map Prod.fst).Nodup) →
    ∀ k m, alookup k (rest.foldl (fun acc p2 => linkPair p1 p2 acc) g) = some m →
      (m.map Prod.fst).Nodup := by
  intro rest
  induction rest with
  | nil => intro g hg; exact hg
  | cons p2 rest ih =>
    intro g hg
    rw [List.foldl_cons]
    refine ih _ ?_
    unfold linkPair
    exact nodupkeys_bumpEdge p2 p1 _ (nodupkeys_bumpEdge p1 p2 g hg)

theorem nodupkeys_addOrderPairs :
    ∀ (ids : List String) (g : Graph),
    (∀ k m, alookup k g = some m → (m.map Prod.fst).Nodup) →
    ∀ k m, alookup k (addOrderPairs ids g) = some m → (m.map Prod.fst).Nodup := by
  intro ids
  induction ids with
  | nil => intro g hg; exact hg
  | cons p rest ih =>
    intro g hg
    simp only [addOrderPairs]
    exact ih _ (nodupkeys_foldl p rest g hg)

theorem nodupkeys_build (orders : List Order) :
    ∀ k m, alookup k (build_recommendation_graph orders) = some m → (m.map Prod.fst).Nodup := by
  unfold build_recommendation_graph
  suffices h : ∀ (os : List Order) (g : Graph),
      (∀ k m, alookup k g = some m → (m.map Prod.fst).Nodup) →
      ∀ k m, alookup k
        (os.foldl (fun g order =>
          addOrderPairs (dedupFirst (order.items.map (fun item => item.product_id))) g) g)
        = some m → (m.map Prod.fst).Nodup by
    exact h orders [] (fun k m hm => by simp [alookup] at hm)
  intro os
  induction os with
  | nil => intro g hg; exact hg
  | cons o os ih =>
    intro g hg
    rw [List.foldl_cons]
    exact ih _ (nodupkeys_addOrderPairs _ g hg)

theorem alookup_eq_of_mem {α β : Type} [DecidableEq α] :
    ∀ (m : List (α × β)), (m.map Prod.fst).Nodup →
    ∀ (k : α) (v : β), (k, v) ∈ m → alookup k m = some v := by
  intro m
  induction m with
  | nil => intro _ k v hmem; simp at hmem
  | cons kv rest ih =>
    intro hnd k v hmem
    obtain ⟨a, b⟩ := kv
    simp only [List.map_cons, List.nodup_cons] at hnd
    rcases List.mem_cons.mp hmem with heq | hmem'
    · have h1 : k = a := congrArg Prod.fst heq
      have h2 : v = b := congrArg Prod.snd heq
      subst h1
      subst h2
      simp [alookup]
    · have hka : a ≠ k := by
        rintro rfl
        exact hnd.1 (List.mem_map_of_mem Prod.fst hmem')
      simp only [alookup, if_neg hka]
      exact ih hnd.2 k v hmem'

/-- C10: the recommendations endpoint resolves the ranked neighbor ids
against the catalog with a filter, so its product list is a subsequence of
the catalog in catalog order (the descending-weight ranking computed by
`get_recommended_product_ids` is discarded); every returned product's id is
among the at-most-3 recommended ids, which are themselves sorted by stored
co-occurrence weight descending; a product id absent from the graph yields
an empty list, and recommended ids missing from the catalog are simply
skipped — never an error. -/
theorem C10_recommendations_catalog_order (orders : List Order) (store : List Product)
    (pid : String) :
    (get_recommendations (build_recommendation_graph orders) store pid).Sublist store ∧
    (∀ p ∈ get_recommendations (build_recommendation_graph orders) store pid,
      p.id ∈ get_recommended_product_ids (build_recommendation_graph orders) pid 3) ∧
    (alookup pid (build_recommendation_graph orders) = none →
      get_recommendations (build_recommendation_graph orders) store pid = []) ∧
    (get_recommended_product_ids (build_recommendation_graph orders) pid 3).length ≤ 3 ∧
    List.Pairwise
      (fun x y : String =>
        weight (build_recommendation_graph orders) pid y
          ≤ weight (build_recommendation_graph orders) pid x)
      (get_recommended_product_ids (build_recommendation_graph orders) pid 3) := by
  refine ⟨List.filter_sublist store, ?_, ?_, ?_, ?_⟩
  · intro p hp
    unfold get_recommendations at hp
    rw [List.mem_filter] at hp
    exact of_decide_eq_true hp.2
  · intro h
    unfold get_recommendations get_recommended_product_ids
    rw [h]
    simp
  · unfold get_recommended_product_ids
    cases halk : alookup pid (build_recommendation_graph orders) with
    | none => simp
    | some neighbors =>
      simp only [List.length_map, List.length_take]
      omega
  · unfold get_recommended_product_ids
    cases halk : alookup pid (build_recommendation_graph orders) with
    | none => simp
    | some neighbors =>
      have hk : (neighbors.map Prod.fst).Nodup := nodupkeys_build orders pid neighbors halk
      haveI hTot : IsTotal (String × ℕ) (fun a b => b.2 ≤ a.2) := ⟨fun a b => le_total b.2 a.2⟩
      haveI hTrans : IsTrans (String × ℕ) (fun a b => b.2 ≤ a.2) :=
        ⟨fun _ _ _ hab hbc => le_trans hbc hab⟩
      have hsorted : List.Pairwise (fun a b : String × ℕ => b.2 ≤ a.2)
          (List.insertionSort (fun a b : String × ℕ => b.2 ≤ a.2) neighbors) :=
        List.sorted_insertionSort (fun a b : String × ℕ => b.2 ≤ a.2) neighbors
      have htake : List.Pairwise (fun a b : String × ℕ => b.2 ≤ a.2)
          ((List.insertionSort (fun a b : String × ℕ => b.2 ≤ a.2) neighbors).take 3) :=
        List.Pairwise.sublist (List.take_sublist 3 _) hsorted
      have hw : ∀ x ∈ (List.insertionSort (fun a b : String × ℕ => b.2 ≤ a.2) neighbors).take 3,
          weight (build_recommendation_graph orders) pid x.1 = x.2 := by
        intro x hx
        have hx1 : x ∈ List.insertionSort (fun a b : String × ℕ => b.2 ≤ a.2) neighbors :=
          (List.take_sublist 3 _).subset hx
        have hx2 : x ∈ neighbors :=
          (List.perm_insertionSort (fun a b : String × ℕ => b.2 ≤ a.2) neighbors).subset hx1
        unfold weight lookupD
        rw [halk]
        simp only [Option.getD_some]
        rw [alookup_eq_of_mem neighbors hk x.1 x.2 (by simpa using hx2)]
        rfl
      rw [List.pairwise_map]
      refine List.Pairwise.imp_of_mem ?_ htake
      intro a b ha hb hab
      rw [hw a ha, hw b hb]
      exact hab

/-- Witness for C10 at concrete data: an unknown product id yields no
recommendations, and the recommendation list for product A is a subsequence
of the catalog. -/
theorem C10_recommendations_witness :
    alookup "Z" (build_recommendation_graph demoOrders) = none ∧
    get_recommendations (build_recommendation_graph demoOrders) demoStore "Z" = [] ∧
    (get_recommendations (build_recommendation_graph demoOrders) demoStore "A").Sublist
      demoStore := by
  refine ⟨by decide, ?_, (C10_recommendations_catalog_order demoOrders demoStore "A").1⟩
  exact (C10_recommendations_catalog_order demoOrders demoStore "Z").2.2.1 (by decide)
